import Mathlib

/-!
Shallow embedding of the WQL parser (`src/wql/src/lib.rs`) of the `wooridb`
repository: a hand-written lexer/parser turning a query string into a typed
`Wql` command.  The Rust character iterator `std::str::Chars` is modelled as a
`List Char` that is threaded explicitly through every reading function; each
function returns its result together with the not-yet-consumed remainder of the
input.  Unicode character classes (`char::is_whitespace`,
`char::is_alphanumeric`, `str::to_uppercase`, `str::to_lowercase`) are modelled
on their ASCII fragments, which is exact for every input the grammar's
keywords, identifiers and literal syntax are made of.
-/

namespace WqlP

/-- The straight single quote character `'` (code 39). -/
def squote : Char := Char.ofNat 39

/-- The double quote character `"` (code 34). -/
def dquote : Char := Char.ofNat 34

/-- The backslash character `\` (code 92). -/
def bslash : Char := Char.ofNat 92

/-- Models Rust `char::is_whitespace` on its ASCII fragment
(space, tab, newline, carriage return, vertical tab, form feed). -/
def rsWhite (c : Char) : Bool :=
  c = ' ' || c = '\t' || c = '\n' || c = '\r' || c = '\x0B' || c = '\x0C'

/-- Models the identifier-character predicate used for entity names and map
keys in the source: `c.is_alphanumeric() || c == &'_'` (ASCII fragment of
`is_alphanumeric`). -/
def identChar (c : Char) : Bool :=
  c.isAlphanum || c = '_'

/-- ASCII lower-casing of a character list; models `str::to_lowercase` on the
ASCII inputs the grammar compares (`nil`). -/
def asciiLower (l : List Char) : List Char :=
  l.map Char.toLower

/-- ASCII upper-casing of a character list; models `str::to_uppercase` on the
ASCII inputs the grammar compares (`REATE`, `NSERT`, `ENTITY`, `INTO`). -/
def asciiUpper (l : List Char) : List Char :=
  l.map Char.toUpper

/-- Models Rust `str::trim` (ASCII whitespace fragment): drop whitespace from
both ends. -/
def rsTrim (l : List Char) : List Char :=
  ((l.dropWhile rsWhite).reverse.dropWhile rsWhite).reverse

/-- The cursor primitive behind every `chars.take_while(p).collect()` call in
the source, where `chars` is a `&mut std::str::Chars`: collect the maximal
prefix of characters satisfying `p`, and additionally consume (discard) the
first character that fails `p`, if the input is not exhausted first.  Returns
the collected run and the remaining input. -/
def takeWhileDrop (p : Char → Bool) : List Char → List Char × List Char
  | [] => ([], [])
  | c :: rest =>
    if p c then
      let r := takeWhileDrop p rest
      (c :: r.1, r.2)
    else
      ([], rest)

/-- Number of bytes of the UTF-8 encoding of one character; used to model
Rust `String::len`, which counts bytes. -/
def utf8Size (c : Char) : Nat :=
  if c.toNat < 0x80 then 1
  else if c.toNat < 0x800 then 2
  else if c.toNat < 0x10000 then 3
  else 4

/-- Models Rust `String::len`: the UTF-8 byte length of the string. -/
def utf8Len (l : List Char) : Nat :=
  (l.map utf8Size).sum

/-- Value of a list of ASCII decimal digits, most significant first. -/
def digitsToNat (l : List Char) : Nat :=
  l.foldl (fun acc c => acc * 10 + (c.toNat - '0'.toNat)) 0

/-- Returns `some n` when `l` is a non-empty run of ASCII digits, else `none`;
the digit-run core of Rust `isize::from_str`. -/
def digitsVal (l : List Char) : Option Nat :=
  if l ≠ [] ∧ l.all Char.isDigit then some (digitsToNat l) else none

/-- Models Rust `str::parse::<isize>` on a 64-bit platform: an optional `+` or
`-` sign followed by at least one ASCII digit, rejected on overflow of the
64-bit signed range. -/
def parseIsize (l : List Char) : Option Int :=
  match l with
  | '+' :: rest =>
    (digitsVal rest).bind fun n => if n ≤ 2 ^ 63 - 1 then some (n : Int) else none
  | '-' :: rest =>
    (digitsVal rest).bind fun n => if n ≤ 2 ^ 63 then some (-(n : Int)) else none
  | _ =>
    (digitsVal l).bind fun n => if n ≤ 2 ^ 63 - 1 then some (n : Int) else none

/-- Models the acceptance grammar of Rust `str::parse::<f64>` (`dec2flt`): an
optional sign, then either a case-insensitive special (`inf`, `infinity`,
`nan`) or a mantissa with at least one digit (`D+`, `D+.D*` or `D*.D+`)
optionally followed by an exponent `e|E sign? D+`, with nothing left over.
`f64` parsing never fails on range, so success is purely grammatical; the
claims never compare float values, so only acceptance is modelled. -/
def isF64 (l : List Char) : Bool :=
  let body :=
    match l with
    | c :: rest => if c = '+' || c = '-' then rest else l
    | [] => l
  if asciiLower body = "inf".data || asciiLower body = "infinity".data
      || asciiLower body = "nan".data then
    true
  else
    let ip := body.takeWhile Char.isDigit
    let r1 := body.dropWhile Char.isDigit
    let afterDot := if r1.head? = some '.' then r1.tail else r1
    let fp := if r1.head? = some '.' then afterDot.takeWhile Char.isDigit else []
    let r2 := if r1.head? = some '.' then afterDot.dropWhile Char.isDigit else r1
    if ip.isEmpty && fp.isEmpty then false
    else
      match r2 with
      | [] => true
      | e :: rest =>
        if e = 'e' || e = 'E' then
          let digitsPart :=
            match rest with
            | c :: r => if c = '+' || c = '-' then r else rest
            | [] => rest
          !digitsPart.isEmpty && digitsPart.all Char.isDigit
        else false

/-- ASCII hex digit predicate (both cases), as accepted by the `uuid` crate. -/
def isHex (c : Char) : Bool :=
  c.isDigit || ('a' ≤ c && c ≤ 'f') || ('A' ≤ c && c ≤ 'F')

/-- Hyphenated canonical UUID form: 36 characters, hyphens exactly at
positions 8, 13, 18 and 23, hex digits everywhere else. -/
def isHyphenatedUuid (l : List Char) : Bool :=
  l.length = 36 &&
    (List.range 36).all fun i =>
      if i = 8 || i = 13 || i = 18 || i = 23 then l.getD i ' ' = '-'
      else isHex (l.getD i ' ')

/-- Models `uuid::Uuid::from_str` acceptance (uuid 0.8): the 32-hex-digit
simple form, the 36-character hyphenated form, or the hyphenated form behind
a `urn:uuid:` prefix. -/
def isUuidStr (l : List Char) : Bool :=
  (l.length = 32 && l.all isHex) || isHyphenatedUuid l ||
    (l.length = 45 && l.take 9 = "urn:uuid:".data && isHyphenatedUuid (l.drop 9))

/-- The 128-bit value of an accepted UUID token: its hex digits folded,
hyphens and the `urn:uuid:` prefix ignored. -/
def uuidNat (l : List Char) : Nat :=
  ((l.filter isHex).foldl (fun acc c => acc * 16 + hexVal c) 0)
where
  hexVal (c : Char) : Nat :=
    if c.isDigit then c.toNat - '0'.toNat
    else if 'a' ≤ c && c ≤ 'f' then c.toNat - 'a'.toNat + 10
    else c.toNat - 'A'.toNat + 10

/-- Models Rust `str::parse::<bool>` (`bool::from_str`): exactly the strings
`true` and `false`, case-sensitively. -/
def parseBoolRust (l : List Char) : Option Bool :=
  if l = "true".data then some true
  else if l = "false".data then some false
  else none

/-- The opening brace character (code 123). -/
def lbrace : Char := Char.ofNat 123

/-- The closing brace character (code 125). -/
def rbrace : Char := Char.ofNat 125

/-- The `Types` enum of the source: the typed literal values of WQL.  `Float`
holds the accepted token (the source stores the parsed `f64`; no claim
compares float values, only which tokens are accepted as floats), `Uuid` holds
the 128-bit value of the hex digits. -/
inductive Types where
  | Char (c : Char)
  | Integer (i : Int)
  | String (s : String)
  | Uuid (u : Nat)
  | Float (raw : String)
  | Boolean (b : Bool)
  | Vector (v : List Types)
  | Map (m : List (String × Types))
  | Nil

/-- Models `type Entity = HashMap<String, Types>`, modelled as an association list
with at most one binding per key. -/
abbrev Entity := List (String × Types)

/-- The `Wql` command enum of the source. -/
inductive Wql where
  | CreateEntity (name : String)
  | Insert (name : String) (entity : Entity)

/-- Models `HashMap::insert`: overwrite the binding of `k` if present, else add it. -/
def insertEntity (res : Entity) (k : String) (v : Types) : Entity :=
  if res.any fun p => p.1 = k then res.map fun p => if p.1 = k then (k, v) else p
  else res ++ [(k, v)]

/-- The `try_fold` body of `read_str` unrolled into recursion: accumulate
characters until an unescaped `"`, decoding the escapes `\t \r \n \\ \"`,
failing on any other escape, and failing with "Unterminated string" when the
input ends first.  The fold state is the pair (last_was_escape, accumulated). -/
def readStrGo (lastWasEscape : Bool) (s : List Char) : List Char → Except String (Types × List Char)
  | [] => .error "Unterminated string"
  | c :: rest =>
    if lastWasEscape then
      if c = 't' then readStrGo false (s ++ ['\t']) rest
      else if c = 'r' then readStrGo false (s ++ ['\r']) rest
      else if c = 'n' then readStrGo false (s ++ ['\n']) rest
      else if c = bslash then readStrGo false (s ++ [bslash]) rest
      else if c = dquote then readStrGo false (s ++ [dquote]) rest
      else .error ("Invalid escape sequence " ++ String.mk [bslash, c])
    else if c = dquote then .ok (.String (String.mk s), rest)
    else if c = bslash then readStrGo true s rest
    else readStrGo false (s ++ [c]) rest

/-- Function `read_str` of the source: called after the opening `"` was consumed. -/
def read_str (chars : List Char) : Except String (Types × List Char) :=
  readStrGo false [] chars

/-- The ordered type-inference chain of `parse_value` over a complete raw
token, verbatim from the source: integer, then float, then UUID, then
boolean, then case-insensitive `nil`, then three-byte quoted char, else the
error naming the token. -/
def inferValue (value : List Char) : Except String Types :=
  match parseIsize value with
  | some i => .ok (.Integer i)
  | none =>
    if isF64 value then .ok (.Float (String.mk value))
    else if isUuidStr value then .ok (.Uuid (uuidNat value))
    else
      match parseBoolRust value with
      | some b => .ok (.Boolean b)
      | none =>
        if asciiLower value = "nil".data then .ok .Nil
        else if value.head? = some squote ∧ value.getLast? = some squote
            ∧ utf8Len value = 3 then
          .ok (.Char (value.getD 1 ' '))
        else .error ("Value Type could not be created from " ++ String.mk value)

/-- Function `parse_value` of the source: `c` is the first character of the value
(already consumed by the map loop).  A `"` delegates to the string reader;
otherwise the token is `c` prepended to a maximal non-whitespace, non-comma
run (whose one stopping delimiter is consumed and discarded), interpreted by
the ordered chain `inferValue`. -/
def parse_value (c : Char) (chars : List Char) : Except String (Types × List Char) :=
  if c = dquote then read_str chars
  else
    let r := takeWhileDrop (fun ch => !rsWhite ch && ch ≠ ',') chars
    match inferValue (c :: r.1) with
    | .ok t => .ok (t, r.2)
    | .error e => .error e

/-- Function `parse_key` of the source: the first character `c` (already consumed)
prepended to a maximal alphanumeric/underscore run; the one stopping
delimiter is consumed and discarded. -/
def parse_key (c : Char) (chars : List Char) : String × List Char :=
  let r := takeWhileDrop identChar chars
  (String.mk (c :: r.1), r.2)

/-- A cursor scan never leaves more input than it was given. -/
theorem takeWhileDrop_snd_le (p : Char → Bool) :
    ∀ l : List Char, (takeWhileDrop p l).2.length ≤ l.length
  | [] => by simp [takeWhileDrop]
  | c :: rest => by
    simp only [takeWhileDrop]
    split
    · exact Nat.le_succ_of_le (takeWhileDrop_snd_le p rest)
    · exact Nat.le_succ _

/-- The string reader never leaves more input than it was given. -/
theorem readStrGo_ok_le :
    ∀ (l : List Char) (esc : Bool) (s : List Char) (v : Types) (rest : List Char),
      readStrGo esc s l = .ok (v, rest) → rest.length ≤ l.length := by
  intro l
  induction l with
  | nil => intro esc s v rest h; simp [readStrGo] at h
  | cons c cs ih =>
    intro esc s v rest h
    simp only [readStrGo] at h
    repeat' split at h
    any_goals exact Nat.le_succ_of_le (ih _ _ _ _ h)
    all_goals simp only [Except.ok.injEq, Prod.mk.injEq, reduceCtorEq] at h
    obtain ⟨-, h2⟩ := h
    rw [← h2]
    exact Nat.le_succ _

/-- Function `parse_value` never leaves more input than it was given. -/
theorem parse_value_ok_le (c : Char) (chars : List Char) (v : Types) (rest : List Char)
    (h : parse_value c chars = .ok (v, rest)) : rest.length ≤ chars.length := by
  simp only [parse_value] at h
  split at h
  · exact readStrGo_ok_le chars false [] v rest h
  · split at h
    · simp only [Except.ok.injEq, Prod.mk.injEq] at h
      obtain ⟨-, h2⟩ := h
      rw [← h2]
      exact takeWhileDrop_snd_le _ chars
    · simp at h

/-- The post-iteration accumulation check of the `read_map` loop: when both a
key and a value are present, insert the entry and reset both to pending. -/
def mapStep (res : Entity) (key : Option String) (val : Option Types) :
    Entity × Option String × Option Types :=
  match key, val with
  | some k, some v => (insertEntity res k v, none, none)
  | _, _ => (res, key, val)

/-- The `loop` of `read_map`: dispatch on the next character (`}` returns the
accumulated mapping, whitespace and comma are separators, anything else starts
a key read when no key is pending and a value read otherwise; end of input is
an error), then run the accumulation check `mapStep`. -/
def readMapGo (res : Entity) (key : Option String) (val : Option Types) :
    List Char → Except String (Entity × List Char)
  | [] => .error "Entity HashMap could not be created"
  | c :: rest =>
    if c = rbrace then .ok (res, rest)
    else if !rsWhite c && c ≠ ',' then
      match key with
      | some _ =>
        match hpv : parse_value c rest with
        | .error e => .error e
        | .ok (v, rest') =>
          let st := mapStep res key (some v)
          readMapGo st.1 st.2.1 st.2.2 rest'
      | none =>
        let pk := parse_key c rest
        let st := mapStep res (some pk.1) val
        readMapGo st.1 st.2.1 st.2.2 pk.2
    else
      let st := mapStep res key val
      readMapGo st.1 st.2.1 st.2.2 rest
termination_by l => l.length
decreasing_by
  · have := parse_value_ok_le c rest v rest' hpv
    simp only [List.length_cons]
    omega
  · have := takeWhileDrop_snd_le identChar rest
    simp only [parse_key, List.length_cons]
    omega
  · simp only [List.length_cons]
    omega

/-- Function `read_map` of the source: the first character must be `{`, then the loop
runs with an empty accumulator and no pending key or value. -/
def read_map (chars : List Char) : Except String (Entity × List Char) :=
  match chars with
  | c :: rest =>
    if c = lbrace then readMapGo [] none none rest
    else .error "Entity map should start with `\x7b` and end with `\x7d`"
  | [] => .error "Entity map should start with `\x7b` and end with `\x7d`"

/-- Function `create_entity` of the source: read the next whitespace-delimited keyword,
require it to be `ENTITY` case-insensitively, then read a maximal
alphanumeric/underscore run, trim it, and return it as the entity name with no
non-emptiness check. -/
def create_entity (chars : List Char) : Except String Wql :=
  let es := takeWhileDrop (fun c => !rsWhite c) chars
  if asciiUpper es.1 ≠ "ENTITY".data then .error "Keyword ENTITY is required for CREATE"
  else
    let en := takeWhileDrop identChar es.2
    .ok (.CreateEntity (String.mk (rsTrim en.1)))

/-- Function `insert` of the source: parse the payload map first, then skip whitespace
and read the keyword, require `INTO` case-insensitively, then read the entity
name, which must be non-empty. -/
def insert (chars : List Char) : Except String Wql :=
  match read_map chars with
  | .error e => .error e
  | .ok (entity_map, rest) =>
    let es := takeWhileDrop (fun c => !rsWhite c) (rest.dropWhile rsWhite)
    if asciiUpper es.1 ≠ "INTO".data then .error "Keyword INTO is required for INSERT"
    else
      let en := takeWhileDrop identChar es.2
      let name := rsTrim en.1
      if name = [] then .error "Entity name is required after INTO"
      else .ok (.Insert (String.mk name) entity_map)

/-- Function `read_symbol` of the source: the first character `a` plus the uppercased
remainder of the first whitespace-delimited token select the command;
anything else is the unimplemented-symbol error echoing the token in its
original casing. -/
def read_symbol (a : Char) (chars : List Char) : Except String Wql :=
  let sym := takeWhileDrop (fun c => !rsWhite c) chars
  if (a = 'c' || a = 'C') && asciiUpper sym.1 = "REATE".data then create_entity sym.2
  else if (a = 'i' || a = 'I') && asciiUpper sym.1 = "NSERT".data then insert sym.2
  else .error ("Symbol `" ++ String.mk [a] ++ String.mk sym.1 ++ "` not implemented")

/-- Function `parse` of the source: dispatch on the first character when there is one,
else the empty-input error. -/
def parse (c : Option Char) (chars : List Char) : Except String Wql :=
  match c with
  | some a => read_symbol a chars
  | none => .error "Empty WQL"

/-- Models `Wql::from_str`: trim leading whitespace, take the first character and
hand the rest of the character stream to `parse`. -/
def fromStr (s : String) : Except String Wql :=
  match s.data.dropWhile rsWhite with
  | [] => parse none []
  | c :: rest => parse (some c) rest

/-! ### Spec-side definitions

The following definitions follow the words of the specification, not the
source; they exist to be compared against the source-derived definitions
above. -/

/-- Spec-side (§4.7): the integer interpretation of a token. -/
def intInterp (v : List Char) : Option Types :=
  (parseIsize v).map Types.Integer

/-- Spec-side (§4.7): the float interpretation of a token. -/
def floatInterp (v : List Char) : Option Types :=
  if isF64 v then some (.Float (String.mk v)) else none

/-- Spec-side (§4.7): the UUID interpretation of a token. -/
def uuidInterp (v : List Char) : Option Types :=
  if isUuidStr v then some (.Uuid (uuidNat v)) else none

/-- Spec-side (§4.7): the boolean interpretation of a token. -/
def boolInterp (v : List Char) : Option Types :=
  (parseBoolRust v).map Types.Boolean

/-- Spec-side (§4.7): the case-insensitive `nil` interpretation of a token. -/
def nilInterp (v : List Char) : Option Types :=
  if asciiLower v = "nil".data then some .Nil else none

/-- Spec-side (§4.7): the three-byte single-quoted char interpretation. -/
def charInterp (v : List Char) : Option Types :=
  if v.head? = some squote ∧ v.getLast? = some squote ∧ utf8Len v = 3 then
    some (.Char (v.getD 1 ' '))
  else none

/-- Spec-side (§4.7, §9): try an explicit ordered list of interpretations
top-to-bottom, first success wins; when every interpretation fails, return
the error naming the token — never a default value. -/
def firstSuccess : List (List Char → Option Types) → List Char → Except String Types
  | [], v => .error ("Value Type could not be created from " ++ String.mk v)
  | f :: fs, v =>
    match f v with
    | some t => .ok t
    | none => firstSuccess fs v

/-- Spec-side (§4.7): the interpretation order the spec prescribes —
integer, float, UUID, boolean, nil, char. -/
def specOrder : List (List Char → Option Types) :=
  [intInterp, floatInterp, uuidInterp, boolInterp, nilInterp, charInterp]

/-- The escape characters the string reader accepts after a backslash. -/
def validEsc (c : Char) : Bool :=
  c = 't' || c = 'r' || c = 'n' || c = bslash || c = dquote

/-- Spec-side (§4.8): scanning `l` from escape state `esc`, the literal never
terminates — no unescaped closing quote is reached and no invalid escape is
hit before the input runs out. -/
def scanNeverCloses : Bool → List Char → Bool
  | _, [] => true
  | true, c :: rest => validEsc c && scanNeverCloses false rest
  | false, c :: rest =>
    if c = dquote then false
    else scanNeverCloses (c = bslash) rest

/-- Boolean check that the token `'m'` (for the character of code `n`) is
interpreted as `Char` of that same character; used to decide claim C4's
amended statement over all ASCII codes at once. -/
def charOkCheck (n : Nat) : Bool :=
  match inferValue [squote, Char.ofNat n, squote] with
  | .ok (.Char x) => x = Char.ofNat n
  | _ => false

/-! ### Helper lemmas -/

/-- A scan over a run that satisfies the predicate throughout, followed by a
failing character: it collects the run and discards the failing character. -/
theorem takeWhileDrop_run (p : Char → Bool) :
    ∀ (pre : List Char) (d : Char) (rest : List Char),
      (∀ c ∈ pre, p c = true) → p d = false →
      takeWhileDrop p (pre ++ d :: rest) = (pre, rest)
  | [], d, rest, _, hd => by simp [takeWhileDrop, hd]
  | c :: pre, d, rest, hpre, hd => by
    have hc : p c = true := hpre c (List.mem_cons_self c pre)
    have ih := takeWhileDrop_run p pre d rest (fun x hx => hpre x (List.mem_cons_of_mem c hx)) hd
    simp [takeWhileDrop, hc, ih]

/-- A scan over input that satisfies the predicate throughout: it collects
everything and consumes nothing extra. -/
theorem takeWhileDrop_all (p : Char → Bool) :
    ∀ l : List Char, (∀ c ∈ l, p c = true) → takeWhileDrop p l = (l, [])
  | [], _ => rfl
  | c :: l, h => by
    have hc : p c = true := h c (List.mem_cons_self c l)
    have ih := takeWhileDrop_all p l fun x hx => h x (List.mem_cons_of_mem c hx)
    simp [takeWhileDrop, hc, ih]

/-- An identifier character is never whitespace. -/
theorem identChar_not_white (c : Char) (h : identChar c = true) : rsWhite c = false := by
  by_contra hw
  rw [Bool.not_eq_false] at hw
  simp only [rsWhite, Bool.or_eq_true, decide_eq_true_eq] at hw
  rcases hw with ((((h1 | h1) | h1) | h1) | h1) | h1 <;> subst h1 <;> exact absurd h (by decide)

/-- Applying `dropWhile` is the identity on a list whose members all fail the
predicate. -/
theorem dropWhile_eq_self_of_all (p : Char → Bool) :
    ∀ l : List Char, (∀ c ∈ l, p c = false) → l.dropWhile p = l
  | [], _ => rfl
  | c :: l, h => by
    have hc : p c = false := h c (List.mem_cons_self c l)
    simp [List.dropWhile_cons, hc]

/-- Trimming is the identity on a whitespace-free list. -/
theorem rsTrim_id (l : List Char) (h : ∀ c ∈ l, rsWhite c = false) : rsTrim l = l := by
  unfold rsTrim
  rw [dropWhile_eq_self_of_all rsWhite l h,
    dropWhile_eq_self_of_all rsWhite l.reverse fun c hc => h c (List.mem_reverse.mp hc),
    List.reverse_reverse]

/-- Whatever entries, key and value are pending, a `}` at the head of the
input makes the map loop return immediately with the accumulated mapping. -/
theorem readMapGo_brace (res : Entity) (key : Option String) (val : Option Types)
    (rest : List Char) : readMapGo res key val (rbrace :: rest) = .ok (res, rest) := by
  rw [readMapGo.eq_def]
  simp

/-- A separator character (whitespace or comma) at the head of the input:
the map loop just runs the accumulation check and continues. -/
theorem readMapGo_sep (res : Entity) (key : Option String) (val : Option Types) (c : Char)
    (rest : List Char) (hc : ¬(c = rbrace)) (hsep : (!rsWhite c && decide (c ≠ ',')) = false) :
    readMapGo res key val (c :: rest) =
      readMapGo (mapStep res key val).1 (mapStep res key val).2.1 (mapStep res key val).2.2
        rest := by
  rw [readMapGo.eq_def]
  dsimp only
  rw [if_neg hc, hsep]
  rfl

/-- A non-separator character at the head of the input while no key is
pending: the map loop reads a key and continues. -/
theorem readMapGo_key (res : Entity) (c : Char) (rest : List Char) (hc : ¬(c = rbrace))
    (hval : (!rsWhite c && decide (c ≠ ',')) = true) :
    readMapGo res none none (c :: rest) =
      readMapGo res (some (parse_key c rest).1) none (parse_key c rest).2 := by
  rw [readMapGo.eq_def]
  dsimp only
  rw [if_neg hc, hval]
  rfl

/-- The source's if-chain in `parse_value` is exactly the spec's ordered
first-success trial over the six interpretations. -/
theorem inferValue_eq_firstSuccess (v : List Char) : inferValue v = firstSuccess specOrder v := by
  rw [specOrder]
  simp only [firstSuccess, intInterp, floatInterp, uuidInterp, boolInterp, nilInterp, charInterp,
    inferValue]
  cases parseIsize v <;> cases parseBoolRust v <;> simp [Option.map] <;> split_ifs <;> rfl

/-- The ASCII instances of the amended C4 statement, decided all at once. -/
theorem charOkCheck_ascii : ∀ n : Fin 128, charOkCheck n.val = true := by decide

/-- A three-character single-quoted token around an ASCII character is
interpreted as `Char` of that character. -/
theorem inferValue_char_ascii (m : Char) (hm : m.toNat < 128) :
    inferValue [squote, m, squote] = .ok (.Char m) := by
  have h1 : charOkCheck m.toNat = true := charOkCheck_ascii ⟨m.toNat, hm⟩
  simp only [charOkCheck, Char.ofNat_toNat] at h1
  split at h1
  · rename_i x heq
    rw [heq]
    simp only [decide_eq_true_eq] at h1
    rw [h1]
  · simp at h1

/-! ### Claim theorems -/

/-- C1: for every unquoted value token (the maximal non-whitespace, non-comma
run with the given first character prepended), `parse_value` attempts typed
interpretation in exactly this order, first success winning: signed base-10
integer, 64-bit float, canonical UUID, boolean literal, case-insensitive
`nil`, three-character single-quoted char; when no interpretation succeeds it
returns the error naming the token and never substitutes a default value. -/
theorem parse_value_ordered_inference (c : Char) (chars : List Char) (h : c ≠ dquote) :
    parse_value c chars =
      (firstSuccess specOrder
          (c :: (takeWhileDrop (fun ch => !rsWhite ch && ch ≠ ',') chars).1)).map
        (fun t => (t, (takeWhileDrop (fun ch => !rsWhite ch && ch ≠ ',') chars).2)) := by
  simp only [parse_value, if_neg h]
  rw [← inferValue_eq_firstSuccess]
  cases inferValue (c :: (takeWhileDrop (fun ch => !rsWhite ch && ch ≠ ',') chars).1) <;>
    simp [Except.map]

/-- Witness for C1 at the token `nil` followed by a comma and further text. -/
theorem parse_value_ordered_inference_witness :
    parse_value 'n' "il, rest".data =
      (firstSuccess specOrder
          ('n' :: (takeWhileDrop (fun ch => !rsWhite ch && ch ≠ ',') "il, rest".data).1)).map
        (fun t => (t, (takeWhileDrop (fun ch => !rsWhite ch && ch ≠ ',') "il, rest".data).2)) :=
  parse_value_ordered_inference 'n' "il, rest".data (by decide)

/-- C2: a `take_while` scan collects the maximal prefix satisfying the
predicate and additionally consumes exactly one further character — the first
failing one — without including it in the result; when the input is exhausted
first, nothing extra is consumed; hence the next character read after a scan
is the second character after the collected run. -/
theorem take_while_discards_one (p : Char → Bool) (pre : List Char) (d : Char)
    (rest : List Char) (hpre : ∀ c ∈ pre, p c = true) (hd : p d = false) :
    takeWhileDrop p (pre ++ d :: rest) = (pre, rest) ∧
    takeWhileDrop p pre = (pre, []) ∧
    (takeWhileDrop p (pre ++ d :: rest)).2.head? = rest.head? :=
  ⟨takeWhileDrop_run p pre d rest hpre hd, takeWhileDrop_all p pre hpre, by
    rw [takeWhileDrop_run p pre d rest hpre hd]⟩

/-- Witness for C2 on the identifier scan over `ab cd`. -/
theorem take_while_discards_one_witness :
    takeWhileDrop identChar ("ab".data ++ ' ' :: "cd".data) = ("ab".data, "cd".data) ∧
    takeWhileDrop identChar "ab".data = ("ab".data, []) ∧
    (takeWhileDrop identChar ("ab".data ++ ' ' :: "cd".data)).2.head? = "cd".data.head? :=
  take_while_discards_one identChar "ab".data ' ' "cd".data (by decide) (by decide)

/-- C3 counterexample: the token `TRUE` (upper case) is not interpreted as a
boolean — Rust's `bool` parse is case-sensitive — and, failing every other
interpretation, `parse_value` returns the un-inferrable-value error. -/
theorem boolean_uppercase_counterexample :
    parse_value 'T' "RUE".data = .error "Value Type could not be created from TRUE" := rfl

/-- C3 amended: exactly the lower-case spellings `true` and `false` are
interpreted as `Boolean` (after the integer, float and UUID interpretations,
which they always fail); any other casing falls through. -/
theorem boolean_exact_lowercase_only (value : List Char) (b : Bool) :
    inferValue value = .ok (.Boolean b) ↔
      (value = "true".data ∧ b = true) ∨ (value = "false".data ∧ b = false) := by
  constructor
  · intro h
    simp only [inferValue] at h
    cases hi : parseIsize value with
    | some i => simp only [hi] at h; exact absurd h (by simp)
    | none =>
      cases hb : parseBoolRust value with
      | some b' =>
        simp only [hi, hb] at h
        split_ifs at h with hf hu
        · simp at h
        · simp at h
        · simp only [Except.ok.injEq, Types.Boolean.injEq] at h
          subst h
          simp only [parseBoolRust] at hb
          split_ifs at hb with ht hff
          · exact Or.inl ⟨ht, (Option.some.inj hb).symm⟩
          · exact Or.inr ⟨hff, (Option.some.inj hb).symm⟩
      | none =>
        simp only [hi, hb] at h
        split_ifs at h <;> simp at h
  · rintro (⟨rfl, rfl⟩ | ⟨rfl, rfl⟩) <;> rfl

/-- Witness for C3: the lower-case token `true` is interpreted as the
boolean true. -/
theorem boolean_exact_lowercase_only_witness :
    inferValue "true".data = .ok (.Boolean true) :=
  (boolean_exact_lowercase_only "true".data true).mpr (Or.inl ⟨rfl, rfl⟩)

/-- C4 counterexample: the token `'é'` is exactly three characters starting
and ending with a single quote and fails every earlier interpretation, yet
`parse_value` rejects it — `String::len` counts UTF-8 bytes, and `é` is two
bytes, so the length-3 test fails. -/
theorem quoted_char_multibyte_counterexample :
    parse_value squote "é'".data = .error "Value Type could not be created from 'é'" := rfl

/-- C4 amended: a three-character single-quoted value token is interpreted
as `Char` of its middle character only when that character is a single UTF-8
byte, i.e. ASCII. -/
theorem quoted_char_ascii_only (m : Char) (rest : List Char) (hm : m.toNat < 128)
    (hw : rsWhite m = false) (hc : m ≠ ',') :
    parse_value squote (m :: squote :: ',' :: rest) = .ok (.Char m, rest) := by
  have hrun : takeWhileDrop (fun ch => !rsWhite ch && ch ≠ ',') (m :: squote :: ',' :: rest)
      = ([m, squote], rest) := by
    refine takeWhileDrop_run _ [m, squote] ',' rest ?_ ?_
    · intro c hcm
      simp only [List.mem_cons, List.not_mem_nil, or_false] at hcm
      rcases hcm with rfl | rfl
      · simp [hw, hc]
      · decide
    · decide
  simp only [parse_value, if_neg (by decide : ¬(squote = dquote)), hrun]
  rw [inferValue_char_ascii m hm]

/-- Witness for C4 amended at the token `'d'`. -/
theorem quoted_char_ascii_only_witness :
    parse_value squote ('d' :: squote :: ',' :: "x".data) = .ok (.Char 'd', "x".data) :=
  quoted_char_ascii_only 'd' "x".data (by decide) (by decide) (by decide)

/-- C5: whenever the map loop meets `}` it immediately returns the mapping
accumulated so far, for every pending key/value state — a pending key is
silently dropped; in particular `{}` and `{ , }` parse to the empty mapping,
and so does `{ a }`, whose pending key `a` never gets a value. -/
theorem map_close_returns_accumulated (res : Entity) (key : Option String) (val : Option Types)
    (rest : List Char) :
    readMapGo res key val (rbrace :: rest) = .ok (res, rest) ∧
    read_map "\x7b\x7d".data = .ok ([], []) ∧
    read_map "\x7b , \x7d".data = .ok ([], []) ∧
    read_map "\x7b a \x7d".data = .ok ([], []) := by
  refine ⟨readMapGo_brace res key val rest, readMapGo_brace [] none none [], ?_, ?_⟩
  · show readMapGo [] none none (' ' :: ',' :: ' ' :: [rbrace]) = .ok ([], [])
    rw [readMapGo_sep [] none none ' ' _ (by decide) (by decide),
      readMapGo_sep _ _ _ ',' _ (by decide) (by decide),
      readMapGo_sep _ _ _ ' ' _ (by decide) (by decide)]
    exact readMapGo_brace _ _ _ []
  · show readMapGo [] none none (' ' :: 'a' :: ' ' :: [rbrace]) = .ok ([], [])
    rw [readMapGo_sep [] none none ' ' _ (by decide) (by decide)]
    show readMapGo [] none none ('a' :: ' ' :: [rbrace]) = .ok ([], [])
    rw [readMapGo_key [] 'a' _ (by decide) (by decide)]
    show readMapGo [] (some (String.mk ['a'])) none [rbrace] = .ok ([], [])
    exact readMapGo_brace [] (some (String.mk ['a'])) none []

/-- Witness for C5 with a non-empty accumulator and a pending key. -/
theorem map_close_returns_accumulated_witness :
    readMapGo [("k", Types.Nil)] (some "pending") none (rbrace :: "rest".data) =
      .ok ([("k", Types.Nil)], "rest".data) :=
  (map_close_returns_accumulated [("k", Types.Nil)] (some "pending") none "rest".data).1

/-- C6: the string reader decodes every supported escape (`\t`, `\r`, `\n`,
`\\`, `\"`) to the corresponding literal character; a backslash followed by
any other character fails the whole parse with the invalid-escape error
naming that character; and the parse fails with "Unterminated string" exactly
when the input runs out before an unescaped closing quote (and before any
invalid escape). -/
theorem read_str_escape_and_termination :
    read_str [bslash, 't', bslash, 'r', bslash, 'n', bslash, bslash, bslash, dquote, dquote] =
      .ok (.String (String.mk ['\t', '\r', '\n', bslash, dquote]), []) ∧
    (∀ (s : List Char) (e : Char) (rest : List Char), validEsc e = false →
      readStrGo false s (bslash :: e :: rest) =
        .error ("Invalid escape sequence " ++ String.mk [bslash, e])) ∧
    (∀ (esc : Bool) (s l : List Char),
      (readStrGo esc s l = .error "Unterminated string" ↔ scanNeverCloses esc l = true)) := by
  refine ⟨rfl, ?_, ?_⟩
  · intro s e rest hv
    simp only [validEsc, Bool.or_eq_false_iff, decide_eq_false_iff_not] at hv
    obtain ⟨⟨⟨⟨h1, h2⟩, h3⟩, h4⟩, h5⟩ := hv
    simp +decide [readStrGo, h1, h2, h3, h4, h5]
  · intro esc s l
    induction l generalizing esc s with
    | nil => simp [readStrGo, scanNeverCloses]
    | cons c cs ih =>
      cases esc with
      | false =>
        by_cases hq : c = dquote
        · subst hq
          simp [readStrGo, scanNeverCloses]
        · by_cases hb : c = bslash
          · subst hb
            simp +decide [readStrGo, scanNeverCloses, ih]
          · set_option maxRecDepth 8192 in
            simp [readStrGo, scanNeverCloses, hq, hb, ih]
      | true =>
        by_cases hv : validEsc c = true
        · simp only [validEsc, Bool.or_eq_true, decide_eq_true_eq] at hv
          rcases hv with ((((rfl | rfl) | rfl) | rfl) | rfl) <;>
            simp +decide [readStrGo, scanNeverCloses, validEsc, ih]
        · have hv' := hv
          simp only [validEsc, Bool.or_eq_true, decide_eq_true_eq, not_or] at hv'
          obtain ⟨⟨⟨⟨h1, h2⟩, h3⟩, h4⟩, h5⟩ := hv'
          have hmsg : ("Invalid escape sequence " ++ String.mk [bslash, c]) ≠
              "Unterminated string" := by
            intro he
            have h26 : ("Invalid escape sequence " ++ String.mk [bslash, c]).length = 26 := rfl
            rw [he] at h26
            exact absurd h26 (by decide)
          simp [readStrGo, scanNeverCloses, validEsc, h1, h2, h3, h4, h5, hmsg]

/-- Witness for C6 at the invalid escape `\q`. -/
theorem read_str_escape_and_termination_witness :
    readStrGo false [] [bslash, 'q'] = .error "Invalid escape sequence \\q" :=
  read_str_escape_and_termination.2.1 [] 'q' [] (by decide)

/-- C7 counterexample: two spaces between `CREATE` and `ENTITY` break the
parse — the keyword scan after `CREATE` discards exactly one whitespace
character, so the second space makes the `ENTITY` check see an empty token. -/
theorem create_multispace_counterexample :
    fromStr "CREATE  ENTITY foo" = .error "Keyword ENTITY is required for CREATE" := rfl

/-- C7 amended: `CREATE ENTITY <name>` parses to `CreateEntity(name)` for
every non-empty alphanumeric/underscore `<name>` when the three tokens are
separated by exactly one whitespace character each; more than one whitespace
character between `CREATE` and `ENTITY` is not accepted (see the
counterexample). -/
theorem create_entity_single_space (name : List Char) (_hne : name ≠ [])
    (hid : ∀ c ∈ name, identChar c = true) :
    fromStr (String.mk ("CREATE ENTITY ".data ++ name)) =
      .ok (.CreateEntity (String.mk name)) := by
  have h1 : fromStr (String.mk ("CREATE ENTITY ".data ++ name)) =
      create_entity ("ENTITY ".data ++ name) := rfl
  have h2 : create_entity ("ENTITY ".data ++ name) =
      .ok (.CreateEntity (String.mk (rsTrim (takeWhileDrop identChar name).1))) := rfl
  rw [h1, h2, takeWhileDrop_all identChar name hid]
  dsimp only
  rw [rsTrim_id name fun c hc => identChar_not_white c (hid c hc)]

/-- Witness for C7 amended at the name `foo`. -/
theorem create_entity_single_space_witness :
    fromStr (String.mk ("CREATE ENTITY ".data ++ "foo".data)) =
      .ok (.CreateEntity (String.mk "foo".data)) :=
  create_entity_single_space "foo".data (by decide) (by decide)

/-- C9: the empty string — and any string of nothing but whitespace, since
leading whitespace is trimmed before the first character is read — parses to
the error "Empty WQL" and no command. -/
theorem empty_wql_error (s : String) (h : ∀ c ∈ s.data, rsWhite c = true) :
    fromStr s = .error "Empty WQL" ∧ fromStr "" = .error "Empty WQL" := by
  refine ⟨?_, rfl⟩
  have hd : s.data.dropWhile rsWhite = [] := by
    rw [List.dropWhile_eq_nil_iff]
    exact h
  simp only [fromStr, hd, parse]

/-- Witness for C9 on a two-space input. -/
theorem empty_wql_error_witness : fromStr "  " = .error "Empty WQL" :=
  (empty_wql_error "  " (by decide)).1

/-- C10: once the final entity-name run is terminated by a non-identifier
character, the parser ignores all remaining text: appending arbitrary further
text after the terminator changes nothing, for both command forms.  The
terminator is constrained to ASCII, where `identChar` coincides with the
source's `c.is_alphanumeric() || c == &'_'`; a non-ASCII alphanumeric would
be part of the name run in the source, not a terminator. -/
theorem trailing_text_ignored (name : List Char) (d : Char) (suffix : List Char)
    (hne : name ≠ []) (hid : ∀ c ∈ name, identChar c = true) (hd : identChar d = false)
    (_hd128 : d.toNat < 128) :
    fromStr (String.mk ("CREATE ENTITY ".data ++ (name ++ d :: suffix))) =
      .ok (.CreateEntity (String.mk name)) ∧
    fromStr (String.mk ("INSERT \x7b\x7d INTO ".data ++ (name ++ d :: suffix))) =
      .ok (.Insert (String.mk name) []) := by
  have hw : ∀ c ∈ name, rsWhite c = false := fun c hc => identChar_not_white c (hid c hc)
  constructor
  · have h1 : fromStr (String.mk ("CREATE ENTITY ".data ++ (name ++ d :: suffix))) =
        create_entity ("ENTITY ".data ++ (name ++ d :: suffix)) := rfl
    have h2 : create_entity ("ENTITY ".data ++ (name ++ d :: suffix)) =
        .ok (.CreateEntity
          (String.mk (rsTrim (takeWhileDrop identChar (name ++ d :: suffix)).1))) := rfl
    rw [h1, h2, takeWhileDrop_run identChar name d suffix hid hd]
    dsimp only
    rw [rsTrim_id name hw]
  · have h1 : fromStr (String.mk ("INSERT \x7b\x7d INTO ".data ++ (name ++ d :: suffix))) =
        insert (lbrace :: rbrace :: ' ' :: ("INTO ".data ++ (name ++ d :: suffix))) := rfl
    rw [h1]
    simp only [insert]
    rw [show read_map (lbrace :: rbrace :: ' ' :: ("INTO ".data ++ (name ++ d :: suffix))) =
        .ok ([], ' ' :: ("INTO ".data ++ (name ++ d :: suffix)))
      from readMapGo_brace [] none none _]
    show (if rsTrim (takeWhileDrop identChar (name ++ d :: suffix)).1 = [] then
            (.error "Entity name is required after INTO" : Except String Wql)
          else
            .ok (.Insert
              (String.mk (rsTrim (takeWhileDrop identChar (name ++ d :: suffix)).1)) [])) =
        .ok (.Insert (String.mk name) [])
    rw [takeWhileDrop_run identChar name d suffix hid hd]
    dsimp only
    rw [rsTrim_id name hw, if_neg hne]

/-- Witness for C10 at the name `foo` followed by ` and more`. -/
theorem trailing_text_ignored_witness :
    fromStr (String.mk ("CREATE ENTITY ".data ++ ("foo".data ++ ' ' :: "and more".data))) =
      .ok (.CreateEntity (String.mk "foo".data)) ∧
    fromStr (String.mk ("INSERT \x7b\x7d INTO ".data ++ ("foo".data ++ ' ' :: "and more".data))) =
      .ok (.Insert (String.mk "foo".data) []) :=
  trailing_text_ignored "foo".data ' ' "and more".data (by decide) (by decide) (by decide)
    (by decide)

end WqlP
